import Mathlib

/-!
Verification development for the IP-reputation batch query tool
(`ip_reputation_gui.py`).  The definitions below are a shallow embedding of
the pipeline code: the IP extractor, the sequential query loop, the result
aggregator, the statistics/facet engine, the filter engine and the JSON
export.  GUI construction, styling and the HTTP transport are out of scope;
remote responses are modelled as an oracle function from IP strings to
already-decoded response values.
-/

namespace WeibuIp

/-! ## Basic string helpers

Python `str.strip`, `str.split(sep)` for a one-character separator, and the
`needle in haystack` substring test, modelled structurally over `List Char`
so that every definition evaluates by kernel reduction.
-/

/-- Python `str.strip()`: drop whitespace from both ends. -/
def pyStrip (s : String) : String :=
  (((s.toList.dropWhile Char.isWhitespace).reverse.dropWhile
      Char.isWhitespace).reverse).asString

/-- Split a character list at every occurrence of the character `sep`
(Python `str.split(sep)` for a single-character separator: empty groups are
kept, and the empty input yields one empty group). -/
def splitCharAux (sep : Char) : List Char → List (List Char)
  | [] => [[]]
  | c :: rest =>
    if c = sep then [] :: splitCharAux sep rest
    else
      match splitCharAux sep rest with
      | [] => [[c]]
      | g :: gs => (c :: g) :: gs

/-- Python `s.split(sep)` for a one-character separator. -/
def pySplit (s : String) (sep : Char) : List String :=
  (splitCharAux sep s.toList).map List.asString

/-- Is `needle` a contiguous segment of `hay`?  (Python `needle in hay`.) -/
def hasSubstr (hay needle : List Char) : Bool :=
  match hay with
  | [] => needle.isEmpty
  | _ :: t => needle.isPrefixOf hay || hasSubstr t needle

/-- Python `needle in hay` on strings. -/
def strContains (hay needle : String) : Bool :=
  hasSubstr hay.toList needle.toList

/-- Python `", ".join(items)`. -/
def joinCommaSpace : List String → String
  | [] => ""
  | [x] => x
  | x :: rest => x ++ ", " ++ joinCommaSpace rest

/-! ## IP extractor (`extract_ips`, lines 94-116)

The source scans the text with the regular expression
`\b(?:\d{1,3}\.){3}\d{1,3}\b` (`re.findall`), then keeps the candidates that
`ipaddress.ip_address` accepts and that are not private, multicast, loopback
or reserved, and finally deduplicates with `dict.fromkeys` (first-occurrence
order).  The regex is deterministic on this pattern: each `\d{1,3}` group
must be followed by a literal `.` (or a word boundary for the last group),
so greedy matching with backtracking reduces to maximal digit runs of
length 1..3.  Word characters are modelled as ASCII alphanumerics or `_`
(the texts of interest are ASCII around the candidate addresses). -/

/-- Regex word character (`\w`), ASCII fragment. -/
def isWordChar (c : Char) : Bool :=
  c.isAlphanum || c = '_'

/-- Match one `\d{1,3}\.` group at the head of `s`: the maximal digit run
must have length 1..3 and be followed by `.`.  Returns the consumed
characters and the remainder. -/
def octDot (s : List Char) : Option (List Char × List Char) :=
  let run := s.takeWhile Char.isDigit
  let rest := s.dropWhile Char.isDigit
  if 1 ≤ run.length ∧ run.length ≤ 3 then
    match rest with
    | '.' :: r => some (run ++ ['.'], r)
    | _ => none
  else none

/-- Match `(?:\d{1,3}\.){3}\d{1,3}\b` at the head of `s`; returns the
matched token.  (The leading `\b` is checked by the scanner.) -/
def matchQuad (s : List Char) : Option (List Char) := do
  let (p1, r1) ← octDot s
  let (p2, r2) ← octDot r1
  let (p3, r3) ← octDot r2
  let run := r3.takeWhile Char.isDigit
  let r4 := r3.dropWhile Char.isDigit
  let trailingBoundary : Bool :=
    match r4 with
    | [] => true
    | c :: _ => !(isWordChar c)
  if 1 ≤ run.length ∧ run.length ≤ 3 ∧ trailingBoundary = true then
    some (p1 ++ p2 ++ p3 ++ run)
  else none

/-- `re.findall` scanner: walk the text left to right; at a position whose
previous character is not a word character (so that `\b` can hold in front of
a digit), try `matchQuad`; on success emit the token and resume after it,
otherwise advance one character.  `fuel` bounds the recursion; `fuel =
length of the text` always suffices since every step consumes at least one
character. -/
def scanAux : Nat → Bool → List Char → List String
  | 0, _, _ => []
  | _ + 1, _, [] => []
  | fuel + 1, prevWord, c :: rest =>
    match (if prevWord then none else matchQuad (c :: rest)) with
    | some tok => tok.asString :: scanAux fuel true (rest.drop (tok.length - 1))
    | none => scanAux fuel (isWordChar c) rest

/-- All regex candidates of the text, in scanning (text) order. -/
def findallCandidates (text : String) : List String :=
  scanAux text.toList.length false text.toList

/-- One octet, per `ipaddress`'s `_parse_octet`: 1-3 ASCII digits, no
leading zero (unless the octet is exactly "0"), value at most 255. -/
def parseOctet (s : String) : Option Nat :=
  let cs := s.toList
  if cs ≠ [] ∧ cs.length ≤ 3 ∧ cs.all Char.isDigit ∧
      (cs.length = 1 ∨ cs.head? ≠ some '0') then
    let v := cs.foldl (fun n c => n * 10 + (c.toNat - '0'.toNat)) 0
    if v ≤ 255 then some v else none
  else none

/-- `ipaddress.ip_address` restricted to dotted-quad candidates: split on
`.` into exactly four octets. -/
def parseIPv4 (s : String) : Option (Nat × Nat × Nat × Nat) :=
  match (splitCharAux '.' s.toList).map List.asString with
  | [a, b, c, d] => do
    let x ← parseOctet a
    let y ← parseOctet b
    let z ← parseOctet c
    let w ← parseOctet d
    pure (x, y, z, w)
  | _ => none

/-- `IPv4Address.is_private`: membership in CPython's `_private_networks`
(0.0.0.0/8, 10/8, 127/8, 169.254/16, 172.16/12, 192.0.0.0/29,
192.0.0.170/31, 192.0.2.0/24, 192.168/16, 198.18/15, 198.51.100/24,
203.0.113/24, 240/4, 255.255.255.255/32). -/
def ipv4IsPrivate : Nat × Nat × Nat × Nat → Bool
  | (a, b, c, d) =>
    decide (a = 0) || decide (a = 10) || decide (a = 127) ||
    (decide (a = 169) && decide (b = 254)) ||
    (decide (a = 172) && decide (16 ≤ b) && decide (b ≤ 31)) ||
    (decide (a = 192) && decide (b = 0) && decide (c = 0) && decide (d ≤ 7)) ||
    (decide (a = 192) && decide (b = 0) && decide (c = 0) &&
      (decide (d = 170) || decide (d = 171))) ||
    (decide (a = 192) && decide (b = 0) && decide (c = 2)) ||
    (decide (a = 192) && decide (b = 168)) ||
    (decide (a = 198) && (decide (b = 18) || decide (b = 19))) ||
    (decide (a = 198) && decide (b = 51) && decide (c = 100)) ||
    (decide (a = 203) && decide (b = 0) && decide (c = 113)) ||
    decide (240 ≤ a)

/-- `IPv4Address.is_multicast`: 224.0.0.0/4. -/
def ipv4IsMulticast : Nat × Nat × Nat × Nat → Bool
  | (a, _, _, _) => decide (224 ≤ a) && decide (a ≤ 239)

/-- `IPv4Address.is_loopback`: 127.0.0.0/8. -/
def ipv4IsLoopback : Nat × Nat × Nat × Nat → Bool
  | (a, _, _, _) => decide (a = 127)

/-- `IPv4Address.is_reserved`: 240.0.0.0/4. -/
def ipv4IsReserved : Nat × Nat × Nat × Nat → Bool
  | (a, _, _, _) => decide (240 ≤ a)

/-- The per-candidate test of `extract_ips`: parses as an IP address and is
neither private nor multicast nor loopback nor reserved. -/
def ipAllowed (s : String) : Bool :=
  match parseIPv4 s with
  | some q =>
    !(ipv4IsPrivate q) && !(ipv4IsMulticast q) && !(ipv4IsLoopback q) &&
      !(ipv4IsReserved q)
  | none => false

/-- `list(dict.fromkeys(l))`: deduplicate keeping the first occurrence of
each element, in order. -/
def dedupFirst : List String → List String
  | [] => []
  | x :: xs => x :: (dedupFirst xs).filter (fun y => !(y == x))

/-- `extract_ips(text)` (lines 94-116). -/
def extract_ips (text : String) : List String :=
  dedupFirst ((findallCandidates text).filter ipAllowed)

/-! ## Data model

The slice of the per-IP API payload that the pipeline reads.  Optional
blocks (`basic`, `basic.location`) are `Option`s because the source guards
for their absence; leaf fields are read with `.get(key, "")`-style defaults
and are therefore plain strings/booleans.  Payload fields the pipeline
never touches (ASN block, tag classes, history, timestamps, evaluation) are
omitted from the model. -/

structure IpLocation where
  country : String
  province : String
  city : String
  deriving DecidableEq, Repr

structure IpBasic where
  carrier : String
  location : Option IpLocation
  deriving DecidableEq, Repr

structure Payload where
  is_malicious : Bool
  confidence_level : String
  severity : String
  basic : Option IpBasic
  judgments : List String
  deriving DecidableEq, Repr

/-- A decoded top-level API response (`response.json()`).  `Option` models
Python `dict.get` returning `None` for absent keys; the `data` block is an
insertion-ordered mapping from IP to payload. -/
structure Response where
  response_code : Option Int
  verbose_msg : Option String
  data : Option (List (String × Payload))
  deriving DecidableEq, Repr

/-! ## Batch query engine (`ApiThread`, lines 19-85)

The worker loop is modelled as a trace of emitted signals.  The remote call
is an oracle `String → Response`; the caller-settable stop flag is modelled
by the index of the first loop check that observes it set (`none` = never),
which captures every asynchronous schedule since the flag only ever goes
from unset to set. -/

inductive Event where
  | json (r : Response) (ip : String)
  | result (r : Response) (ip : String)
  | error (msg : String)
  | progress (current total : Nat)
  | limit (msg : String)
  deriving DecidableEq, Repr

/-- Is the stop flag observed set at the `i`-th top-of-loop check? -/
def stopSet (stopAt : Option Nat) (i : Nat) : Bool :=
  match stopAt with
  | none => false
  | some n => decide (n ≤ i)

/-- `result.get('verbose_msg')` interpolated into an f-string
(Python prints `None` for a missing key). -/
def verboseOrNone (r : Response) : String :=
  match r.verbose_msg with
  | some m => m
  | none => "None"

/-- `result.get('verbose_msg', '未知错误')`. -/
def verboseOrUnknown (r : Response) : String :=
  match r.verbose_msg with
  | some m => m
  | none => "未知错误"

/-- The body of `ApiThread.run` (lines 38-85): one iteration per entry of
the comma-split input; the stop flag is checked at the top of each
iteration; blank entries are skipped without counting; a `response_code 0`
response with a `data` block emits `result`; `response_code 2` emits the
limit notice and breaks out of the loop; anything else emits a per-IP
error.  Success and error both bump the progress counter. -/
def runLoop (oracle : String → Response) (stopAt : Option Nat) (total : Nat) :
    Nat → Nat → List String → List Event
  | _, _, [] => []
  | i, processed, ip0 :: rest =>
    if stopSet stopAt i then []
    else
      let ip := pyStrip ip0
      if ip = "" then runLoop oracle stopAt total (i + 1) processed rest
      else
        let result := oracle ip
        Event.json result ip ::
        (if result.response_code = some 0 ∧ result.data.isSome then
          Event.result result ip ::
          Event.progress (processed + 1) total ::
          runLoop oracle stopAt total (i + 1) (processed + 1) rest
        else if result.response_code = some 2 then
          [Event.limit ("API调用超出次数限制: " ++ verboseOrNone result)]
        else
          Event.error ("查询IP " ++ ip ++ " 错误: " ++ verboseOrUnknown result) ::
          Event.progress (processed + 1) total ::
          runLoop oracle stopAt total (i + 1) (processed + 1) rest)

/-- `ApiThread.run` on an already-split batch of target entries. -/
def runList (oracle : String → Response) (stopAt : Option Nat)
    (ips : List String) : List Event :=
  runLoop oracle stopAt ips.length 0 0 ips

/-- `ApiThread.run` on the raw comma-joined input
(`self.ip_addresses = ip_addresses.split(',')`). -/
def apiThreadRun (oracle : String → Response) (stopAt : Option Nat)
    (ip_addresses : String) : List Event :=
  runList oracle stopAt (pySplit ip_addresses ',')

/-! ## Result aggregator (`add_result`, lines 717-850) -/

/-- One row of the overview table, as built by `add_result`: the displayed
texts of the seven columns (the IP, the 是/否 malicious flag, the mapped
confidence text plus the raw value saved under `Qt.UserRole`, the mapped
severity text, the location text, the carrier, the comma-joined judgments)
together with the Qt row-hidden flag. -/
structure Row where
  ip : String
  maliciousText : String
  confidenceText : String
  confidenceData : String
  severityText : String
  locationText : String
  carrierText : String
  judgmentsText : String
  hidden : Bool
  deriving DecidableEq, Repr

/-- `confidence_map` (line 765) with the `.get(confidence, confidence)`
fallback. -/
def confidenceMap (c : String) : String :=
  if c = "low" then "低" else if c = "medium" then "中"
  else if c = "high" then "高" else c

/-- `severity_map` (line 776) with its fallback. -/
def severityMap (s : String) : String :=
  if s = "critical" then "严重" else if s = "high" then "高"
  else if s = "medium" then "中" else if s = "low" then "低"
  else if s = "info" then "无危胁" else s

/-- The location column text (lines 784-795): country, then the province if
non-empty, then the city if non-empty and different from the province; the
empty string when the `basic`/`location` blocks are absent. -/
def locationTextOf (p : Payload) : String :=
  match p.basic with
  | none => ""
  | some b =>
    match b.location with
    | none => ""
    | some loc =>
      loc.country ++
      (if loc.province ≠ "" then " " ++ loc.province else "") ++
      (if loc.city ≠ "" ∧ loc.city ≠ loc.province then " " ++ loc.city else "")

/-- The table row appended by `add_result` for a successful merge. -/
def mkRow (ip : String) (p : Payload) : Row :=
  { ip := ip
    maliciousText := if p.is_malicious then "是" else "否"
    confidenceText := confidenceMap p.confidence_level
    confidenceData := p.confidence_level
    severityText := severityMap p.severity
    locationText := locationTextOf p
    carrierText := (p.basic.map IpBasic.carrier).getD ""
    judgmentsText := joinCommaSpace p.judgments
    hidden := false }

/-- Python dict assignment `d[k] = v`: overwrite in place if the key is
present, otherwise append at the end (insertion order preserved). -/
def dictSet (k : String) (v : Payload) :
    List (String × Payload) → List (String × Payload)
  | [] => [(k, v)]
  | (k0, v0) :: rest =>
    if k0 = k then (k, v) :: rest else (k0, v0) :: dictSet k v rest

/-- The foreground aggregate: `self.current_results["data"]` plus the rows
of the overview table. -/
structure AppState where
  current_results : List (String × Payload)
  table : List Row
  deriving DecidableEq, Repr

/-- `add_result(result, ip)` (lines 717-850): reject a response without a
`data` block, or whose `data` block lacks the queried IP, with an error
notice and no state change; otherwise overwrite the store entry for the IP
and append a fresh table row.  Returns the new state and the error notice,
if any. -/
def add_result (st : AppState) (result : Response) (ip : String) :
    AppState × Option String :=
  match result.data with
  | none => (st, some ("IP " ++ ip ++ " 查询响应结构异常"))
  | some d =>
    match d.lookup ip with
    | none => (st, some ("IP " ++ ip ++ " 数据缺失"))
    | some payload =>
      ({ current_results := dictSet ip payload st.current_results
         table := st.table ++ [mkRow ip payload] }, none)

/-- `create_single_result_object(ip, data)` (lines 1564-1573). -/
def create_single_result_object (ip : String) (p : Payload) : Response :=
  { response_code := some 0
    verbose_msg := some "Ok"
    data := some [(ip, p)] }

/-! ## Statistics/facet engine (`update_statistics`, lines 887-1009, and
`create_dynamic_labels`, lines 1011-1043)

`update_statistics` iterates over the rows of the overview table (all of
them — it never consults the row-hidden flag) and over the store for the
total; `create_dynamic_labels` sorts a counting dict by count, descending
and stably, and keeps the first five entries. -/

/-- The reverse mapping and bucket decision for one row's confidence cell
(lines 918-942): prefer the raw value saved under `Qt.UserRole`, falling
back to reverse-mapping the display text; bucket on the raw value first and
on the display text as a last resort. -/
def confBucket (text data : String) : Option String :=
  let c :=
    if data = "" then
      (if text = "低" then "low" else if text = "中" then "medium"
       else if text = "高" then "high" else text)
    else data
  if c = "high" then some "high"
  else if c = "medium" then some "medium"
  else if c = "low" then some "low"
  else if text = "高" then some "high"
  else if text = "中" then some "medium"
  else if text = "低" then some "low"
  else none

/-- Geography bucket of a location text (lines 947-957): 中国/China plus
安徽/Anhui markers, with empty texts uncounted. -/
def geoBucket (loc : String) : Option String :=
  if strContains loc "中国" || strContains loc "China" then
    (if strContains loc "安徽" || strContains loc "Anhui" then some "anhui"
     else some "china_other")
  else if loc ≠ "" then some "foreign"
  else none

/-- One step of Python dict counting (`d[k] += 1` / `d[k] = 1`). -/
def bump : List (String × Nat) → String → List (String × Nat)
  | [], k => [(k, 1)]
  | (k0, n) :: rest, k =>
    if k0 = k then (k0, n + 1) :: rest else (k0, n) :: bump rest k

/-- The counting dict of a label sequence, in insertion (first-seen)
order. -/
def countsOf (labels : List String) : List (String × Nat) :=
  labels.foldl bump []

/-- Insert into a descending-by-count list: skip every entry with a
strictly larger count and stop before the first entry whose count is not
larger — the unique stable position (ties go after the already-placed,
earlier-seen entries and before later-inserted ones). -/
def insertDesc (x : String × Nat) : List (String × Nat) → List (String × Nat)
  | [] => [x]
  | y :: ys => if x.2 < y.2 then y :: insertDesc x ys else x :: y :: ys

/-- Stable descending sort by count — the model of Python's
`sorted(items, key=lambda x: x[1], reverse=True)` (Python's sort is stable,
and a stable sort's output is unique, so any stable algorithm is a faithful
model). -/
def sortDesc : List (String × Nat) → List (String × Nat)
  | [] => []
  | x :: xs => insertDesc x (sortDesc xs)

/-- `create_dynamic_labels` (lines 1011-1043): sort the counting dict by
count descending and keep the first five entries for display. -/
def create_dynamic_labels (counts : List (String × Nat)) : List (String × Nat) :=
  (sortDesc counts).take 5

/-- The judgment labels contributed by one row (lines 969-980): split the
cell on commas, strip each piece, count the non-empty ones; an empty cell
contributes nothing. -/
def judgmentLabels (r : Row) : List String :=
  if r.judgmentsText = "" then []
  else ((pySplit r.judgmentsText ',').map pyStrip).filter (fun j => !(j == ""))

/-- The derived statistics (`FacetCounts`). -/
structure Stats where
  total : Nat
  malicious : Nat
  safe : Int
  confidenceHigh : Nat
  confidenceMedium : Nat
  confidenceLow : Nat
  anhui : Nat
  chinaOther : Nat
  foreign : Nat
  carrierTop : List (String × Nat)
  judgmentTop : List (String × Nat)
  deriving DecidableEq, Repr

/-- The row-scanning part of `update_statistics` applied to a list of rows,
together with the store-derived total (`total_ips = len(ips_data)`, line
890) and `safe = total - malicious` (line 992). -/
def statsCore (total : Nat) (rows : List Row) : Stats :=
  { total := total
    malicious := rows.countP (fun r => r.maliciousText == "是")
    safe := (total : Int) - rows.countP (fun r => r.maliciousText == "是")
    confidenceHigh :=
      rows.countP (fun r => confBucket r.confidenceText r.confidenceData == some "high")
    confidenceMedium :=
      rows.countP (fun r => confBucket r.confidenceText r.confidenceData == some "medium")
    confidenceLow :=
      rows.countP (fun r => confBucket r.confidenceText r.confidenceData == some "low")
    anhui := rows.countP (fun r => geoBucket r.locationText == some "anhui")
    chinaOther := rows.countP (fun r => geoBucket r.locationText == some "china_other")
    foreign := rows.countP (fun r => geoBucket r.locationText == some "foreign")
    carrierTop :=
      create_dynamic_labels
        (countsOf ((rows.map Row.carrierText).filter (fun c => !(c == ""))))
    judgmentTop :=
      create_dynamic_labels (countsOf (rows.flatMap judgmentLabels)) }

/-- `update_statistics` (lines 887-1009): the total comes from the store,
every other count from the table rows — all of them, hidden or not. -/
def update_statistics (store : List (String × Payload)) (rows : List Row) : Stats :=
  statsCore store.length rows

/-- Modelled from the spec: `recompute(visible_rows) -> FacetCounts`, the
FacetCounts as a pure function of the currently *visible* (filtered) rows
only — the source has no such function; `update_statistics` is compared
against this rendering of the spec's words. -/
def recompute_visible (rows : List Row) : Stats :=
  statsCore (rows.filter (fun r => !r.hidden)).length
    (rows.filter (fun r => !r.hidden))

/-! ## Filter engine (lines 1068-1143, 1145-1155, 1474-1498)

The filter state of the app is the hidden flag of each table row plus the
checked state of the "仅显示恶意IP" checkbox; there is no stored facet
state.  Qt's `stateChanged` signal (which runs `filter_table`) fires
whenever `setChecked` changes the stored value, synchronously. -/

structure FilterState where
  rows : List Row
  maliciousOnly : Bool
  deriving DecidableEq, Repr

/-- A facet filter request, as passed to `filter_by_category`. -/
inductive Facet where
  | malicious (value : Bool)
  | confidence (value : String)
  | location (value : String)
  | carrier (value : String)
  | judgment (value : String)
  deriving DecidableEq, Repr

/-- The `show_row` decision of `filter_by_category` (lines 1080-1136). -/
def rowShow (f : Facet) (r : Row) : Bool :=
  match f with
  | .malicious value => ((r.maliciousText == "是") == value)
  | .confidence value =>
    if value = "high" ∧ r.confidenceText = "高" then true
    else if value = "medium" ∧ r.confidenceText = "中" then true
    else if value = "low" ∧ r.confidenceText = "低" then true
    else r.confidenceData == value
  | .location value =>
    let hasChina := strContains r.locationText "中国" || strContains r.locationText "China"
    let hasAnhui := strContains r.locationText "安徽" || strContains r.locationText "Anhui"
    if value = "anhui" then hasChina && hasAnhui
    else if value = "china_other" then hasChina && !hasAnhui
    else if value = "foreign" then !(r.locationText == "") && !hasChina
    else false
  | .carrier value => r.carrierText == value
  | .judgment value =>
    (if r.judgmentsText = "" then []
     else (pySplit r.judgmentsText ',').map pyStrip).contains value

/-- Show every row (the `setRowHidden(row, False)` loops). -/
def setAllVisible (rows : List Row) : List Row :=
  rows.map (fun r => { r with hidden := false })

/-- The checked branch of `filter_table` (lines 1479-1487): hide every
currently visible non-malicious row. -/
def applyMaliciousOnly (rows : List Row) : List Row :=
  rows.map (fun r =>
    if !r.hidden && !(r.maliciousText == "是") then { r with hidden := true } else r)

/-- `reset_filter` (lines 1145-1155): show all rows, then — when the
malicious-only box is checked — re-run the checked branch of
`filter_table` over them. -/
def reset_filter (s : FilterState) : FilterState :=
  let rows := setAllVisible s.rows
  if s.maliciousOnly then { s with rows := applyMaliciousOnly rows }
  else { s with rows := rows }

/-- `filter_table` (lines 1474-1498): when checked, hide visible
non-malicious rows; when unchecked, fall back to `reset_filter`. -/
def filter_table (s : FilterState) : FilterState :=
  if s.maliciousOnly then { s with rows := applyMaliciousOnly s.rows }
  else reset_filter s

/-- `show_malicious_only.setChecked(b)` / a user click: update the box and,
when the stored value changes, run the connected `filter_table` slot. -/
def setMaliciousOnly (b : Bool) (s : FilterState) : FilterState :=
  if s.maliciousOnly = b then s
  else filter_table { s with maliciousOnly := b }

/-- `filter_by_category(category, value)` (lines 1068-1143): uncheck the
malicious-only box (running its slot if it was checked), show every row,
then hide each row that fails the facet predicate. -/
def filter_by_category (f : Facet) (s : FilterState) : FilterState :=
  let s1 := setMaliciousOnly false s
  let rows1 := setAllVisible s1.rows
  { s1 with rows := rows1.map (fun r => { r with hidden := !(rowShow f r) }) }

/-! ## JSON export (`export_as_json`, lines 1404-1407)

Modelled at the document (AST) level: `json.dump` serializes the Python
dict faithfully, so the repository's contribution is the document shape
`{"data": {<ip>: <payload>}}`. -/

inductive Json where
  | str (s : String)
  | bool (b : Bool)
  | arr (elems : List Json)
  | obj (fields : List (String × Json))
  | null

/-- Field lookup in a JSON object. -/
def jLookup (fields : List (String × Json)) (k : String) : Option Json :=
  match fields with
  | [] => none
  | (k0, v) :: rest => if k0 = k then some v else jLookup rest k

def locationToJson (loc : IpLocation) : Json :=
  .obj [("country", .str loc.country), ("province", .str loc.province),
        ("city", .str loc.city)]

def basicToJson (b : IpBasic) : Json :=
  .obj (("carrier", .str b.carrier) ::
    (match b.location with
     | none => []
     | some loc => [("location", locationToJson loc)]))

/-- The JSON document of one stored payload (absent optional blocks are
omitted, as in the stored Python dict). -/
def payloadToJson (p : Payload) : Json :=
  .obj ([("is_malicious", .bool p.is_malicious),
         ("confidence_level", .str p.confidence_level),
         ("severity", .str p.severity),
         ("judgments", .arr (p.judgments.map .str))] ++
    (match p.basic with
     | none => []
     | some b => [("basic", basicToJson b)]))

/-- `export_as_json` (lines 1404-1407): the exported document
`{"data": {<ip>: <payload>}}`. -/
def export_as_json (store : List (String × Payload)) : Json :=
  .obj [("data", .obj (store.map (fun kv => (kv.1, payloadToJson kv.2))))]

def asStr : Json → Option String
  | .str s => some s
  | _ => none

def asBool : Json → Option Bool
  | .bool b => some b
  | _ => none

def locationFromJson : Json → Option IpLocation
  | .obj fs => do
    let country ← jLookup fs "country" >>= asStr
    let province ← jLookup fs "province" >>= asStr
    let city ← jLookup fs "city" >>= asStr
    pure { country := country, province := province, city := city }
  | _ => none

def basicFromJson : Json → Option IpBasic
  | .obj fs => do
    let carrier ← jLookup fs "carrier" >>= asStr
    let location ←
      match jLookup fs "location" with
      | none => pure none
      | some j => (locationFromJson j).map some
    pure { carrier := carrier, location := location }
  | _ => none

/-- Read a list of JSON strings back as a `List String`. -/
def strListOf : List Json → Option (List String)
  | [] => some []
  | j :: rest =>
    match asStr j with
    | none => none
    | some s => (strListOf rest).map (fun l => s :: l)

def payloadFromJson : Json → Option Payload
  | .obj fs => do
    let m ← jLookup fs "is_malicious" >>= asBool
    let c ← jLookup fs "confidence_level" >>= asStr
    let s ← jLookup fs "severity" >>= asStr
    let js ←
      match jLookup fs "judgments" with
      | some (.arr elems) => strListOf elems
      | _ => none
    let b ←
      match jLookup fs "basic" with
      | none => pure none
      | some j => (basicFromJson j).map some
    pure { is_malicious := m, confidence_level := c, severity := s,
           basic := b, judgments := js }
  | _ => none

/-- Read the entries of the exported `data` object back one by one. -/
def parseEntries : List (String × Json) → Option (List (String × Payload))
  | [] => some []
  | kv :: rest =>
    match payloadFromJson kv.2 with
    | none => none
    | some p => (parseEntries rest).map (fun l => (kv.1, p) :: l)

/-- Modelled from the spec: the "re-import-equivalent parse" of an exported
document — read the `data` object back into the keyed aggregate.  The
source has no importer; this is the inverse reading named by the spec's
round-trip property. -/
def parseExported (j : Json) : Option (List (String × Payload)) :=
  match j with
  | .obj fs =>
    match jLookup fs "data" with
    | some (.obj entries) => parseEntries entries
    | _ => none
  | _ => none

/-! ## Lemmas about `dictSet` (Python dict assignment) -/

theorem dictSet_lookup_self (k : String) (v : Payload) :
    ∀ l : List (String × Payload), (dictSet k v l).lookup k = some v := by
  intro l
  induction l with
  | nil => simp [dictSet, List.lookup]
  | cons q rest ih =>
    by_cases hq : q.1 = k
    · simp [dictSet, hq, List.lookup]
    · have hbe : (k == q.1) = false := by
        simp only [beq_eq_false_iff_ne]
        exact fun h2 => hq h2.symm
      simp [dictSet, hq, List.lookup, hbe, ih]

theorem dictSet_lookup_ne (k k2 : String) (v : Payload) (h : k2 ≠ k) :
    ∀ l : List (String × Payload), (dictSet k v l).lookup k2 = l.lookup k2 := by
  intro l
  induction l with
  | nil =>
    have hbe : (k2 == k) = false := by
      simp only [beq_eq_false_iff_ne]
      exact h
    simp [dictSet, List.lookup, hbe]
  | cons q rest ih =>
    by_cases hq : q.1 = k
    · subst hq
      have hbe : (k2 == q.1) = false := by
        simp only [beq_eq_false_iff_ne]
        exact h
      simp [dictSet, List.lookup, hbe]
    · cases hbe : (k2 == q.1) <;> simp [dictSet, hq, List.lookup, hbe, ih]

theorem dictSet_map_fst (k : String) (v : Payload) :
    ∀ l : List (String × Payload),
      (dictSet k v l).map Prod.fst =
        if k ∈ l.map Prod.fst then l.map Prod.fst else l.map Prod.fst ++ [k] := by
  intro l
  induction l with
  | nil => simp [dictSet]
  | cons q rest ih =>
    by_cases hq : q.1 = k
    · simp [dictSet, hq]
    · have hne : k ≠ q.1 := fun h2 => hq h2.symm
      by_cases hm : k ∈ rest.map Prod.fst <;>
        simp [dictSet, hq, ih, hm, hne]

theorem countP_fst_eq_zero (ip : String) :
    ∀ l : List (String × Payload), ip ∉ l.map Prod.fst →
      l.countP (fun q => q.1 == ip) = 0 := by
  intro l
  induction l with
  | nil => simp
  | cons q rest ih =>
    intro h
    simp only [List.map_cons, List.mem_cons, not_or] at h
    have hq : (q.1 == ip) = false := by
      simp only [beq_eq_false_iff_ne]
      exact fun h2 => h.1 h2.symm
    simp [List.countP_cons, ih h.2, hq]

theorem dictSet_countP_one (ip : String) (v : Payload) :
    ∀ l : List (String × Payload), (l.map Prod.fst).Nodup →
      (dictSet ip v l).countP (fun q => q.1 == ip) = 1 := by
  intro l
  induction l with
  | nil => simp [dictSet, List.countP_cons]
  | cons q rest ih =>
    intro hnd
    simp only [List.map_cons, List.nodup_cons] at hnd
    by_cases hq : q.1 = ip
    · subst hq
      simp [dictSet, List.countP_cons, countP_fst_eq_zero q.1 rest hnd.1]
    · simp [dictSet, hq, List.countP_cons, ih hnd.2]

/-! ## Concrete fixtures used by witnesses and counterexamples -/

/-- A malicious high-confidence payload. -/
def payA : Payload :=
  { is_malicious := true, confidence_level := "high", severity := "high",
    basic := some ⟨"电信", some ⟨"中国", "安徽", "合肥"⟩⟩,
    judgments := ["扫描", "僵尸网络"] }

/-- A benign low-confidence payload. -/
def payB : Payload :=
  { is_malicious := false, confidence_level := "low", severity := "info",
    basic := some ⟨"移动", some ⟨"美国", "", ""⟩⟩,
    judgments := [] }

/-- A benign payload whose confidence is nevertheless "high". -/
def payC : Payload :=
  { is_malicious := false, confidence_level := "high", severity := "low",
    basic := none, judgments := [] }

/-- The empty foreground aggregate. -/
def emptyState : AppState := { current_results := [], table := [] }

/-- C10: processing a response without a `data` block, or whose `data`
block lacks the queried IP, emits an error notice and leaves the aggregate
store and the displayed rows exactly as they were (no entry added,
replaced, or removed). -/
theorem c10_merge_failure_atomic (st : AppState) (result : Response) (ip : String)
    (h : result.data = none ∨ ∃ d, result.data = some d ∧ d.lookup ip = none) :
    (add_result st result ip).1 = st ∧ ((add_result st result ip).2).isSome = true := by
  rcases h with h | ⟨d, hd, hlook⟩
  · simp [add_result, h]
  · simp [add_result, hd, hlook]

/-- A response whose `data` block lacks the queried IP. -/
def respWrongIp : Response :=
  { response_code := some 0, verbose_msg := some "Ok",
    data := some [("9.9.9.9", payA)] }

theorem c10_merge_failure_atomic_witness :
    (respWrongIp.data = none ∨
      ∃ d, respWrongIp.data = some d ∧ d.lookup "8.8.8.8" = none) ∧
    ((add_result emptyState respWrongIp "8.8.8.8").1 = emptyState ∧
      ((add_result emptyState respWrongIp "8.8.8.8").2).isSome = true) :=
  ⟨Or.inr ⟨[("9.9.9.9", payA)], rfl, by decide⟩,
   c10_merge_failure_atomic emptyState respWrongIp "8.8.8.8"
     (Or.inr ⟨[("9.9.9.9", payA)], rfl, by decide⟩)⟩

/-- C3 counterexample: merging two successful responses for the same IP in
one run leaves the keyed store with one entry but appends a second
displayed row for that IP — the displayed rows do not end up with
"exactly one entry for that IP" as the claim states. -/
theorem c3_counterexample :
    ((add_result
        (add_result emptyState (create_single_result_object "8.8.8.8" payA) "8.8.8.8").1
        (create_single_result_object "8.8.8.8" payB) "8.8.8.8").1.current_results
      = [("8.8.8.8", payB)]) ∧
    (((add_result
        (add_result emptyState (create_single_result_object "8.8.8.8" payA) "8.8.8.8").1
        (create_single_result_object "8.8.8.8" payB) "8.8.8.8").1.table.filter
          (fun r => r.ip == "8.8.8.8")).length = 2) := by
  constructor <;> rfl

/-- C3 (amended): per IP key, the *keyed store* is idempotent — the second
merge overwrites, leaving exactly one entry holding the later payload and
all other keys untouched — but the *displayed rows* are not: each merge
appends a fresh row, so the table gains two rows for the re-queried IP. -/
theorem c3_amended_merge (st : AppState) (ip : String) (p1 p2 : Payload)
    (hnd : (st.current_results.map Prod.fst).Nodup) :
    ((add_result
        (add_result st (create_single_result_object ip p1) ip).1
        (create_single_result_object ip p2) ip).1.current_results.lookup ip = some p2) ∧
    ((add_result
        (add_result st (create_single_result_object ip p1) ip).1
        (create_single_result_object ip p2) ip).1.current_results.countP
          (fun q => q.1 == ip) = 1) ∧
    (∀ k, k ≠ ip →
      (add_result
        (add_result st (create_single_result_object ip p1) ip).1
        (create_single_result_object ip p2) ip).1.current_results.lookup k
        = st.current_results.lookup k) ∧
    ((add_result
        (add_result st (create_single_result_object ip p1) ip).1
        (create_single_result_object ip p2) ip).1.table
      = st.table ++ [mkRow ip p1, mkRow ip p2]) := by
  have hstep : ∀ (s : AppState) (p : Payload),
      (add_result s (create_single_result_object ip p) ip).1 =
        { current_results := dictSet ip p s.current_results
          table := s.table ++ [mkRow ip p] } := by
    intro s p
    simp [add_result, create_single_result_object, List.lookup]
  rw [hstep, hstep]
  have hnd1 : ((dictSet ip p1 st.current_results).map Prod.fst).Nodup := by
    rw [dictSet_map_fst]
    by_cases hm : ip ∈ st.current_results.map Prod.fst
    · simpa [hm] using hnd
    · rw [if_neg hm]
      refine List.Nodup.append hnd (List.nodup_singleton ip) ?_
      intro x hx hx2
      rw [List.mem_singleton] at hx2
      subst hx2
      exact hm hx
  refine ⟨dictSet_lookup_self ip p2 _, dictSet_countP_one ip p2 _ hnd1, ?_, by simp⟩
  intro k hk
  rw [dictSet_lookup_ne ip k p2 hk, dictSet_lookup_ne ip k p1 hk]

theorem c3_amended_merge_witness :
    ((emptyState.current_results.map Prod.fst).Nodup) ∧
    (((add_result
        (add_result emptyState (create_single_result_object "8.8.8.8" payA) "8.8.8.8").1
        (create_single_result_object "8.8.8.8" payB) "8.8.8.8").1.current_results.lookup
          "8.8.8.8" = some payB) ∧
    ((add_result
        (add_result emptyState (create_single_result_object "8.8.8.8" payA) "8.8.8.8").1
        (create_single_result_object "8.8.8.8" payB) "8.8.8.8").1.current_results.countP
          (fun q => q.1 == "8.8.8.8") = 1) ∧
    (∀ k, k ≠ "8.8.8.8" →
      (add_result
        (add_result emptyState (create_single_result_object "8.8.8.8" payA) "8.8.8.8").1
        (create_single_result_object "8.8.8.8" payB) "8.8.8.8").1.current_results.lookup k
        = emptyState.current_results.lookup k) ∧
    ((add_result
        (add_result emptyState (create_single_result_object "8.8.8.8" payA) "8.8.8.8").1
        (create_single_result_object "8.8.8.8" payB) "8.8.8.8").1.table
      = emptyState.table ++ [mkRow "8.8.8.8" payA, mkRow "8.8.8.8" payB])) :=
  ⟨List.nodup_nil, c3_amended_merge emptyState "8.8.8.8" payA payB List.nodup_nil⟩

/-! ## Filter-engine lemmas and claims C5, C6 -/

theorem filter_by_category_eq (f : Facet) (s : FilterState) :
    filter_by_category f s =
      { rows := s.rows.map (fun r => { r with hidden := !(rowShow f r) }),
        maliciousOnly := false } := by
  rcases s with ⟨rows, mo⟩
  cases mo <;>
    simp only [filter_by_category, setMaliciousOnly, filter_table, reset_filter,
      setAllVisible, List.map_map, reduceCtorEq, Bool.true_eq_false, Bool.false_eq_true,
      if_false, ite_false, if_true, ite_true, eq_self_iff_true] <;>
    congr 1

theorem reset_filter_eq (s : FilterState) :
    (reset_filter s).rows =
      if s.maliciousOnly then
        s.rows.map (fun r => { r with hidden := !(r.maliciousText == "是") })
      else setAllVisible s.rows := by
  rcases s with ⟨rows, mo⟩
  cases mo <;>
    simp only [reset_filter, setAllVisible, applyMaliciousOnly, List.map_map,
      reduceCtorEq, Bool.true_eq_false, Bool.false_eq_true,
      if_true, ite_true, if_false, ite_false]
  congr 1
  funext r
  cases hm : (r.maliciousText == "是") <;> simp_all

theorem toggle_after_facet (f : Facet) (s : FilterState) :
    (setMaliciousOnly true (filter_by_category f s)).rows =
      s.rows.map (fun r =>
        { r with hidden := !(rowShow f r && (r.maliciousText == "是")) }) := by
  rw [filter_by_category_eq]
  simp only [setMaliciousOnly, filter_table, reduceCtorEq, Bool.false_eq_true,
    if_false, ite_false, if_true, ite_true, applyMaliciousOnly, List.map_map]
  congr 1
  funext r
  cases hs : rowShow f r <;> cases hm : (r.maliciousText == "是") <;> simp_all

/-- Row of `payA`: malicious, confidence 高. -/
def rowMalHigh : Row := mkRow "1.1.1.1" payA

/-- Row of `payB`: benign, confidence 低. -/
def rowSafeLow : Row := mkRow "2.2.2.2" payB

/-- The state after applying the facet filter (confidence, "high") to the
two-row table. -/
def c5AfterFacet : FilterState :=
  filter_by_category (Facet.confidence "high")
    { rows := [rowMalHigh, rowSafeLow], maliciousOnly := false }

/-- ... and after then enabling the malicious-only toggle. -/
def c5AfterToggleOn : FilterState := setMaliciousOnly true c5AfterFacet

/-- C5 counterexample: with the facet filter (confidence, "high") active
(second row hidden) and the malicious-only toggle then enabled, disabling
the toggle makes every row visible — including the row that fails the
still-active facet filter — instead of restoring facet-governed
visibility. -/
theorem c5_counterexample :
    (setMaliciousOnly false c5AfterToggleOn).rows.map Row.hidden = [false, false] ∧
    rowShow (Facet.confidence "high") rowSafeLow = false ∧
    c5AfterToggleOn.rows.map Row.hidden = [false, true] ∧
    c5AfterToggleOn.maliciousOnly = true := by
  refine ⟨rfl, rfl, rfl, rfl⟩

/-- C5 (amended): disabling the malicious-only toggle falls back to a full
filter reset — every row becomes visible and the facet filter is not
reapplied (when the toggle was already off, nothing changes). -/
theorem c5_disable_malicious_only_resets (s : FilterState) :
    setMaliciousOnly false s =
      if s.maliciousOnly then
        { rows := setAllVisible s.rows, maliciousOnly := false }
      else s := by
  rcases s with ⟨rows, mo⟩
  cases mo <;>
    simp [setMaliciousOnly, filter_table, reset_filter]

/-- Row of `payC`: benign, confidence 高 — here hidden by a previously
applied malicious-only filter. -/
def c6HiddenRow : Row := { mkRow "3.3.3.3" payC with hidden := true }

/-- A state with the malicious-only toggle checked and its non-malicious
row accordingly hidden. -/
def c6Checked : FilterState := { rows := [c6HiddenRow], maliciousOnly := true }

/-- C6 counterexample: applying a facet filter while the malicious-only
toggle is checked *unchecks* the toggle and shows the non-malicious
facet-matching row, so the malicious-only predicate is not left in force as
the claim states. -/
theorem c6_counterexample :
    (filter_by_category (Facet.confidence "high") c6Checked).maliciousOnly = false ∧
    (filter_by_category (Facet.confidence "high") c6Checked).rows.map Row.hidden
      = [false] ∧
    c6HiddenRow.maliciousText = "否" ∧
    c6Checked.maliciousOnly = true := by
  refine ⟨rfl, rfl, rfl, rfl⟩

/-- C6 (amended): at most one facet filter is ever in force — applying a
new one recomputes visibility from scratch, from the new predicate alone —
but it also unchecks the malicious-only toggle rather than leaving it in
force.  The sequential scenarios hold: applying a facet filter and then
enabling malicious-only shows exactly the rows satisfying both predicates,
and a filter reset with the toggle still checked shows exactly the
malicious rows. -/
theorem c6_single_facet_toggle_cleared (s : FilterState) (f : Facet) :
    (filter_by_category f s).maliciousOnly = false ∧
    (filter_by_category f s).rows =
      s.rows.map (fun r => { r with hidden := !(rowShow f r) }) ∧
    (setMaliciousOnly true (filter_by_category f s)).rows =
      s.rows.map (fun r =>
        { r with hidden := !(rowShow f r && (r.maliciousText == "是")) }) ∧
    (∀ s2 : FilterState, (reset_filter s2).rows =
      if s2.maliciousOnly then
        s2.rows.map (fun r => { r with hidden := !(r.maliciousText == "是") })
      else setAllVisible s2.rows) := by
  refine ⟨?_, ?_, toggle_after_facet f s, fun s2 => reset_filter_eq s2⟩
  · rw [filter_by_category_eq]
  · rw [filter_by_category_eq]

/-! ## JSON round trip (claim C9) -/

theorem strListOf_map_str (l : List String) : strListOf (l.map Json.str) = some l := by
  induction l with
  | nil => rfl
  | cons x xs ih => simp [strListOf, asStr, ih]

theorem locationFromJson_toJson (loc : IpLocation) :
    locationFromJson (locationToJson loc) = some loc := by
  rcases loc with ⟨country, province, city⟩
  rfl

theorem basicFromJson_toJson (b : IpBasic) :
    basicFromJson (basicToJson b) = some b := by
  rcases b with ⟨carrier, loc⟩
  cases loc with
  | none => rfl
  | some l =>
    simp [basicToJson, basicFromJson, jLookup, asStr, locationFromJson_toJson]

theorem payloadFromJson_toJson (p : Payload) :
    payloadFromJson (payloadToJson p) = some p := by
  rcases p with ⟨m, c, s, b, js⟩
  cases b with
  | none =>
    simp [payloadToJson, payloadFromJson, jLookup, asBool, asStr, strListOf_map_str]
  | some bb =>
    simp [payloadToJson, payloadFromJson, jLookup, asBool, asStr, strListOf_map_str,
      basicFromJson_toJson]

/-- C9: exporting the aggregate as `{data: {<ip>: <payload>}}` and parsing
the exported document back reproduces the aggregate exactly: the same IP
keys in the same order, and for each key the very payload that was
stored. -/
theorem c9_json_export_roundtrip (store : List (String × Payload)) :
    parseExported (export_as_json store) = some store := by
  show parseEntries (store.map fun kv => (kv.1, payloadToJson kv.2)) = some store
  induction store with
  | nil => rfl
  | cons kv rest ih => simp [parseEntries, payloadFromJson_toJson, ih]

/-! ## Batch query engine lemmas and claims C1, C7 -/

def isLimitEvent : Event → Bool
  | .limit _ => true
  | _ => false

def isJsonEvent : Event → Bool
  | .json _ _ => true
  | _ => false

def isResultEvent : Event → Bool
  | .result _ _ => true
  | _ => false

/-- The one-step unfolding of the loop body on a non-empty queue. -/
theorem runLoop_cons (oracle : String → Response) (stopAt : Option Nat)
    (total i processed : Nat) (q : String) (rest : List String) :
    runLoop oracle stopAt total i processed (q :: rest) =
      if stopSet stopAt i then []
      else
        if pyStrip q = "" then runLoop oracle stopAt total (i + 1) processed rest
        else
          Event.json (oracle (pyStrip q)) (pyStrip q) ::
          (if (oracle (pyStrip q)).response_code = some 0 ∧
              (oracle (pyStrip q)).data.isSome then
            Event.result (oracle (pyStrip q)) (pyStrip q) ::
            Event.progress (processed + 1) total ::
            runLoop oracle stopAt total (i + 1) (processed + 1) rest
          else if (oracle (pyStrip q)).response_code = some 2 then
            [Event.limit ("API调用超出次数限制: " ++ verboseOrNone (oracle (pyStrip q)))]
          else
            Event.error ("查询IP " ++ pyStrip q ++ " 错误: " ++
              verboseOrUnknown (oracle (pyStrip q))) ::
            Event.progress (processed + 1) total ::
            runLoop oracle stopAt total (i + 1) (processed + 1) rest) := rfl

theorem runLoop_limit_trace (oracle : String → Response) (total : Nat) (ip0 : String)
    (hblank : ¬ (pyStrip ip0 = ""))
    (h2 : (oracle (pyStrip ip0)).response_code = some 2) :
    ∀ (pre : List String) (post : List String) (i processed : Nat),
      ((runLoop oracle none total i processed (pre ++ ip0 :: post)).countP isLimitEvent
        = 1) ∧
      (∀ r ip, Event.json r ip ∈ runLoop oracle none total i processed (pre ++ ip0 :: post) →
        ip ∈ (pre ++ [ip0]).map pyStrip) ∧
      (∃ evs msg, runLoop oracle none total i processed (pre ++ ip0 :: post)
        = evs ++ [Event.limit msg]) := by
  intro pre
  induction pre with
  | nil =>
    intro post i processed
    have h20 : ¬ ((oracle (pyStrip ip0)).response_code = some 0 ∧
        (oracle (pyStrip ip0)).data.isSome = true) := by
      rw [h2]
      simp
    rw [List.nil_append, runLoop_cons]
    rw [show stopSet (none : Option Nat) i = false from rfl,
      if_neg (by simp), if_neg hblank, if_neg h20, if_pos h2]
    refine ⟨by simp [isLimitEvent, List.countP_cons], ?_, ?_⟩
    · intro r ip hmem
      simp only [List.mem_cons, List.not_mem_nil, or_false] at hmem
      rcases hmem with h | h
      · cases h
        simp
      · simp at h
    · exact ⟨[Event.json (oracle (pyStrip ip0)) (pyStrip ip0)], _, rfl⟩
  | cons q pre ih =>
    intro post i processed
    rw [List.cons_append, runLoop_cons]
    rw [show stopSet (none : Option Nat) i = false from rfl, if_neg (by simp)]
    by_cases hq : pyStrip q = ""
    · rw [if_pos hq]
      rcases ih post (i + 1) processed with ⟨hc, hm, hx⟩
      refine ⟨hc, ?_, hx⟩
      intro r ip hmem
      rw [List.cons_append, List.map_cons]
      exact List.mem_cons_of_mem _ (hm r ip hmem)
    · rw [if_neg hq]
      by_cases h01 : (oracle (pyStrip q)).response_code = some 0 ∧
          (oracle (pyStrip q)).data.isSome = true
      · rw [if_pos h01]
        rcases ih post (i + 1) (processed + 1) with ⟨hc, hm, evs, msg, hx⟩
        refine ⟨by simp [isLimitEvent, List.countP_cons, hc], ?_, ?_⟩
        · intro r ip hmem
          simp only [List.mem_cons] at hmem
          rcases hmem with h | h | h | hmem
          · cases h
            simp
          · simp at h
          · simp at h
          · rw [List.cons_append, List.map_cons]
            exact List.mem_cons_of_mem _ (hm r ip hmem)
        · exact ⟨Event.json (oracle (pyStrip q)) (pyStrip q) ::
            Event.result (oracle (pyStrip q)) (pyStrip q) ::
            Event.progress (processed + 1) total :: evs, msg, by rw [hx]; rfl⟩
      · rw [if_neg h01]
        by_cases h22 : (oracle (pyStrip q)).response_code = some 2
        · rw [if_pos h22]
          refine ⟨by simp [isLimitEvent, List.countP_cons], ?_, ?_⟩
          · intro r ip hmem
            simp only [List.mem_cons, List.not_mem_nil, or_false] at hmem
            rcases hmem with h | h
            · cases h
              simp
            · simp at h
          · exact ⟨[Event.json (oracle (pyStrip q)) (pyStrip q)], _, rfl⟩
        · rw [if_neg h22]
          rcases ih post (i + 1) (processed + 1) with ⟨hc, hm, evs, msg, hx⟩
          refine ⟨by simp [isLimitEvent, List.countP_cons, hc], ?_, ?_⟩
          · intro r ip hmem
            simp only [List.mem_cons] at hmem
            rcases hmem with h | h | h | hmem
            · cases h
              simp
            · simp at h
            · simp at h
            · rw [List.cons_append, List.map_cons]
              exact List.mem_cons_of_mem _ (hm r ip hmem)
          · exact ⟨Event.json (oracle (pyStrip q)) (pyStrip q) ::
              Event.error ("查询IP " ++ pyStrip q ++ " 错误: " ++
                verboseOrUnknown (oracle (pyStrip q))) ::
              Event.progress (processed + 1) total :: evs, msg, by rw [hx]; rfl⟩

theorem runLoop_stop_take (oracle : String → Response) (total k : Nat) :
    ∀ (l : List String) (i processed : Nat),
      runLoop oracle (some k) total i processed l =
        runLoop oracle none total i processed (l.take (k - i)) := by
  intro l
  induction l with
  | nil =>
    intro i processed
    rw [List.take_nil]
    rfl
  | cons q rest ih =>
    intro i processed
    by_cases hk : k ≤ i
    · have ht : k - i = 0 := Nat.sub_eq_zero_of_le hk
      rw [ht, List.take_zero, runLoop_cons,
        if_pos (by simp [stopSet, hk])]
      rfl
    · have ht : k - i = (k - (i + 1)) + 1 := by omega
      rw [ht, List.take_succ_cons, runLoop_cons, runLoop_cons]
      rw [show stopSet (some k) i = false by simp [stopSet, hk]]
      rw [show stopSet (none : Option Nat) i = false from rfl]
      simp only [Bool.false_eq_true, if_false]
      by_cases hq : pyStrip q = ""
      · rw [if_pos hq, if_pos hq, ih]
      · rw [if_neg hq, if_neg hq]
        by_cases h01 : (oracle (pyStrip q)).response_code = some 0 ∧
            (oracle (pyStrip q)).data.isSome = true
        · rw [if_pos h01, if_pos h01, ih]
        · rw [if_neg h01, if_neg h01]
          by_cases h22 : (oracle (pyStrip q)).response_code = some 2
          · rw [if_pos h22, if_pos h22]
          · rw [if_neg h22, if_neg h22, ih]


/-- C1: on a `response_code 2` response the job emits the limit notice and
terminates: the trace contains exactly one limit notice, it is the final
event of the trace, and every remote lookup (`json` event) concerns an
entry at or before the rate-limited position — no IP after it is ever
queried, regardless of how many entries remain. -/
theorem c1_rate_limit_aborts_job (oracle : String → Response)
    (pre post : List String) (ip0 : String)
    (hblank : ¬ (pyStrip ip0 = ""))
    (h2 : (oracle (pyStrip ip0)).response_code = some 2) :
    ((runList oracle none (pre ++ ip0 :: post)).countP isLimitEvent = 1) ∧
    (∀ r ip, Event.json r ip ∈ runList oracle none (pre ++ ip0 :: post) →
      ip ∈ (pre ++ [ip0]).map pyStrip) ∧
    (∃ evs msg, runList oracle none (pre ++ ip0 :: post) = evs ++ [Event.limit msg]) :=
  runLoop_limit_trace oracle (pre ++ ip0 :: post).length ip0 hblank h2 pre post 0 0

/-- The rate-limited response returned for `1.2.3.4` by the witness
oracle. -/
def limitResponse : Response :=
  { response_code := some 2, verbose_msg := some "limit", data := none }

/-- A witness oracle: every IP succeeds except `1.2.3.4`, which hits the
rate limit. -/
def oracleLimited : String → Response := fun ip =>
  if ip = "1.2.3.4" then limitResponse else create_single_result_object ip payB

theorem c1_rate_limit_aborts_job_witness :
    ((¬ (pyStrip "1.2.3.4" = "")) ∧
      (oracleLimited (pyStrip "1.2.3.4")).response_code = some 2) ∧
    (((runList oracleLimited none (["8.8.8.8"] ++ "1.2.3.4" :: ["9.9.9.9", "7.7.7.7"])).countP
        isLimitEvent = 1) ∧
     (∀ r ip, Event.json r ip ∈
        runList oracleLimited none (["8.8.8.8"] ++ "1.2.3.4" :: ["9.9.9.9", "7.7.7.7"]) →
        ip ∈ (["8.8.8.8"] ++ ["1.2.3.4"]).map pyStrip) ∧
     (∃ evs msg, runList oracleLimited none
        (["8.8.8.8"] ++ "1.2.3.4" :: ["9.9.9.9", "7.7.7.7"]) = evs ++ [Event.limit msg])) :=
  ⟨⟨by decide, by decide⟩,
   c1_rate_limit_aborts_job oracleLimited ["8.8.8.8"] ["9.9.9.9", "7.7.7.7"] "1.2.3.4"
     (by decide) (by decide)⟩

/-- Five queued target IPs for the cancellation scenario. -/
def fiveIps : List String := ["8.8.8.8", "9.9.9.9", "7.7.7.7", "6.6.6.6", "5.5.5.5"]

/-- A witness oracle on which every lookup succeeds. -/
def oracleAllOk : String → Response := fun ip => create_single_result_object ip payB

/-- C7: cancellation is cooperative and final — the stop flag is checked at
the top of every iteration, and a flag first observed set at check `k`
makes the run behave exactly like an uncancelled run over the first `k`
queue entries (same lookups, same emitted results, same progress events,
with the original total); in particular stopping the five-IP batch after
two processed lookups leaves exactly two `result` events, two lookups, and
a final progress of 2 of 5. -/
theorem c7_cancellation_cooperative :
    (∀ (oracle : String → Response) (ips : List String) (k : Nat),
      runList oracle (some k) ips = runLoop oracle none ips.length 0 0 (ips.take k)) ∧
    ((runList oracleAllOk (some 2) fiveIps).countP isResultEvent = 2 ∧
     (runList oracleAllOk (some 2) fiveIps).countP isJsonEvent = 2 ∧
     Event.progress 2 5 ∈ runList oracleAllOk (some 2) fiveIps) := by
  constructor
  · intro oracle ips k
    have h := runLoop_stop_take oracle ips.length k ips 0 0
    rw [Nat.sub_zero] at h
    exact h
  · exact ⟨by decide, by decide, by decide⟩

/-! ## Statistics engine lemmas and claim C4 -/

theorem update_statistics_hidden_irrelevant (store : List (String × Payload))
    (rows : List Row) (f : Row → Bool) :
    update_statistics store (rows.map fun r => { r with hidden := f r }) =
      update_statistics store rows := by
  simp only [update_statistics, statsCore]
  congr 1 <;>
    (simp only [List.countP_map, List.map_map, List.flatMap_def]; try rfl)

/-- A malicious row that is currently hidden by a filter. -/
def hiddenMalRow : Row := { mkRow "6.6.6.6" payA with hidden := true }

/-- C4 counterexample: `update_statistics` counts hidden rows too — with a
single hidden malicious row the malicious count is 1 even though the set of
visible rows is empty, so the recomputed counts are not a function of the
visible rows (and differ from the spec-modelled visible-only
recomputation). -/
theorem c4_counterexample :
    (update_statistics [("6.6.6.6", payA)] [hiddenMalRow]).malicious = 1 ∧
    ([hiddenMalRow].filter (fun r => !r.hidden)) = [] ∧
    update_statistics [("6.6.6.6", payA)] [hiddenMalRow]
      ≠ recompute_visible [hiddenMalRow] := by
  refine ⟨rfl, rfl, by decide⟩

/-- C4 (amended): the FacetCounts are a pure function of *all* rows of the
table — the row-hidden flags are ignored, so filtered-out rows still
contribute to every count — with the total taken from the aggregate store
(and safe = total − malicious); they are recomputed in full on each merge,
not on view changes. -/
theorem c4_stats_ignore_visibility (store : List (String × Payload))
    (rows : List Row) (f : Row → Bool) :
    update_statistics store (rows.map fun r => { r with hidden := f r }) =
      update_statistics store rows ∧
    (update_statistics store rows).total = store.length ∧
    (update_statistics store rows).safe =
      (store.length : Int) - ((update_statistics store rows).malicious : Int) :=
  ⟨update_statistics_hidden_irrelevant store rows f, rfl, rfl⟩

/-! ## Extractor lemmas and claim C2 -/

theorem mem_dedupFirst {a : String} : ∀ {l : List String}, a ∈ dedupFirst l ↔ a ∈ l := by
  intro l
  induction l with
  | nil => simp [dedupFirst]
  | cons x xs ih =>
    by_cases hax : a = x
    · subst hax
      simp [dedupFirst]
    · simp [dedupFirst, List.mem_filter, ih, hax]

theorem nodup_dedupFirst : ∀ l : List String, (dedupFirst l).Nodup := by
  intro l
  induction l with
  | nil => simp [dedupFirst]
  | cons x xs ih =>
    simp only [dedupFirst]
    rw [List.nodup_cons]
    refine ⟨?_, ih.filter _⟩
    intro hx
    have := (List.mem_filter.mp hx).2
    simp at this

theorem dedupFirst_pairwise_indexOf : ∀ l : List String,
    (dedupFirst l).Pairwise (fun a b => l.indexOf a < l.indexOf b) := by
  intro l
  induction l with
  | nil => simp [dedupFirst]
  | cons x xs ih =>
    simp only [dedupFirst]
    refine List.pairwise_cons.mpr ⟨?_, ?_⟩
    · intro b hb
      have hbx : ¬ (b = x) := by
        have := (List.mem_filter.mp hb).2
        simpa using this
      rw [List.indexOf_cons_self, List.indexOf_cons_ne _ (fun h => hbx h.symm)]
      exact Nat.succ_pos _
    · have h2 := ih.filter (fun y => !(y == x))
      refine List.Pairwise.imp_of_mem ?_ h2
      intro a b ha hb hab
      have hax : ¬ (a = x) := by
        have := (List.mem_filter.mp ha).2
        simpa using this
      have hbx : ¬ (b = x) := by
        have := (List.mem_filter.mp hb).2
        simpa using this
      rw [List.indexOf_cons_ne _ (fun h => hax h.symm),
        List.indexOf_cons_ne _ (fun h => hbx h.symm)]
      omega

theorem indexOf_filter_lt (p : String → Bool) :
    ∀ (l : List String) (a b : String), a ∈ l.filter p → b ∈ l.filter p →
      (l.filter p).indexOf a < (l.filter p).indexOf b → l.indexOf a < l.indexOf b := by
  intro l
  induction l with
  | nil =>
    intro a b ha
    simp at ha
  | cons x xs ih =>
    intro a b ha hb hlt
    by_cases hp : p x
    · rw [List.filter_cons_of_pos hp] at ha hb hlt
      by_cases hax : a = x
      · subst hax
        have hbx : ¬ (b = a) := by
          intro hba
          subst hba
          simp at hlt
        rw [List.indexOf_cons_self]
        rw [List.indexOf_cons_ne _ (fun h => hbx h.symm)]
        exact Nat.succ_pos _
      · have ha2 : a ∈ xs.filter p := by
          rcases List.mem_cons.mp ha with h | h
          · exact absurd h hax
          · exact h
        have hbx : ¬ (b = x) := by
          intro hbxe
          subst hbxe
          rw [List.indexOf_cons_self,
            List.indexOf_cons_ne _ (fun h => hax h.symm)] at hlt
          omega
        have hb2 : b ∈ xs.filter p := by
          rcases List.mem_cons.mp hb with h | h
          · exact absurd h hbx
          · exact h
        rw [List.indexOf_cons_ne _ (fun h => hax h.symm),
          List.indexOf_cons_ne _ (fun h => hbx h.symm)] at hlt ⊢
        have := ih a b ha2 hb2 (by omega)
        omega
    · rw [List.filter_cons_of_neg hp] at ha hb hlt
      have hax : ¬ (a = x) := by
        intro h
        subst h
        exact hp ((List.mem_filter.mp ha).2)
      have hbx : ¬ (b = x) := by
        intro h
        subst h
        exact hp ((List.mem_filter.mp hb).2)
      rw [List.indexOf_cons_ne _ (fun h => hax h.symm),
        List.indexOf_cons_ne _ (fun h => hbx h.symm)]
      have := ih a b ha hb hlt
      omega

/-- C2: every extracted element parses as a syntactically valid IPv4
address and is neither private nor loopback nor multicast nor reserved; no
element occurs twice; elements appear in first-occurrence (scanning) order
of the candidates of the text; the spec's example yields exactly
`["8.8.8.8", "1.1.1.1"]`, and a text with no surviving candidate yields
the empty list rather than an error. -/
theorem c2_extractor_contract :
    (∀ text : String,
      (∀ s ∈ extract_ips text, ∃ q, parseIPv4 s = some q ∧
        ipv4IsPrivate q = false ∧ ipv4IsMulticast q = false ∧
        ipv4IsLoopback q = false ∧ ipv4IsReserved q = false) ∧
      (extract_ips text).Nodup ∧
      (extract_ips text).Pairwise (fun a b =>
        (findallCandidates text).indexOf a < (findallCandidates text).indexOf b)) ∧
    extract_ips "10.0.0.1, 8.8.8.8, 8.8.8.8, 999.1.1.1, 1.1.1.1" = ["8.8.8.8", "1.1.1.1"] ∧
    extract_ips "hello 10.0.0.1 world" = [] := by
  refine ⟨?_, rfl, rfl⟩
  intro text
  refine ⟨?_, nodup_dedupFirst _, ?_⟩
  · intro s hs
    have hmem : s ∈ (findallCandidates text).filter ipAllowed := mem_dedupFirst.mp hs
    have hallow : ipAllowed s = true := (List.mem_filter.mp hmem).2
    unfold ipAllowed at hallow
    cases hq : parseIPv4 s with
    | none =>
      rw [hq] at hallow
      cases hallow
    | some q =>
      rw [hq] at hallow
      simp only [Bool.and_eq_true, Bool.not_eq_true'] at hallow
      exact ⟨q, rfl, hallow.1.1.1, hallow.1.1.2, hallow.1.2, hallow.2⟩
  · have h1 := dedupFirst_pairwise_indexOf ((findallCandidates text).filter ipAllowed)
    refine List.Pairwise.imp_of_mem ?_ h1
    intro a b ha hb hab
    exact indexOf_filter_lt ipAllowed (findallCandidates text) a b
      (mem_dedupFirst.mp ha) (mem_dedupFirst.mp hb) hab

theorem c2_extractor_contract_witness :
    ("8.8.8.8" ∈ extract_ips "10.0.0.1, 8.8.8.8, 8.8.8.8, 999.1.1.1, 1.1.1.1") ∧
    (∃ q, parseIPv4 "8.8.8.8" = some q ∧ ipv4IsPrivate q = false ∧
      ipv4IsMulticast q = false ∧ ipv4IsLoopback q = false ∧ ipv4IsReserved q = false) :=
  ⟨by decide,
   (c2_extractor_contract.1 "10.0.0.1, 8.8.8.8, 8.8.8.8, 999.1.1.1, 1.1.1.1").1
     "8.8.8.8" (by decide)⟩

/-! ## Stable descending sort and counting-dict lemmas, claim C8 -/

theorem insertDesc_perm (x : String × Nat) :
    ∀ l : List (String × Nat), (insertDesc x l).Perm (x :: l) := by
  intro l
  induction l with
  | nil => exact List.Perm.refl _
  | cons y ys ih =>
    by_cases h : x.2 < y.2
    · rw [show insertDesc x (y :: ys) = y :: insertDesc x ys by
        simp [insertDesc, h]]
      exact (ih.cons y).trans (List.Perm.swap x y ys)
    · rw [show insertDesc x (y :: ys) = x :: y :: ys by
        simp [insertDesc, h]]

theorem mem_insertDesc {a x : String × Nat} {l : List (String × Nat)} :
    a ∈ insertDesc x l ↔ a = x ∨ a ∈ l := by
  rw [(insertDesc_perm x l).mem_iff]
  simp

theorem insertDesc_sorted (x : String × Nat) :
    ∀ l : List (String × Nat), l.Pairwise (fun a b => b.2 ≤ a.2) →
      (insertDesc x l).Pairwise (fun a b => b.2 ≤ a.2) := by
  intro l
  induction l with
  | nil =>
    intro _
    simp [insertDesc]
  | cons y ys ih =>
    intro h
    rcases List.pairwise_cons.mp h with ⟨hy, hys⟩
    by_cases hlt : x.2 < y.2
    · rw [show insertDesc x (y :: ys) = y :: insertDesc x ys by simp [insertDesc, hlt]]
      refine List.pairwise_cons.mpr ⟨?_, ih hys⟩
      intro b hb
      rcases mem_insertDesc.mp hb with h | h
      · subst h
        omega
      · exact hy b h
    · rw [show insertDesc x (y :: ys) = x :: y :: ys by simp [insertDesc, hlt]]
      refine List.pairwise_cons.mpr ⟨?_, h⟩
      intro b hb
      rcases List.mem_cons.mp hb with h2 | h2
      · subst h2
        omega
      · have := hy b h2
        omega

theorem sortDesc_perm : ∀ l : List (String × Nat), (sortDesc l).Perm l := by
  intro l
  induction l with
  | nil => exact List.Perm.refl _
  | cons x xs ih =>
    exact (insertDesc_perm x (sortDesc xs)).trans (ih.cons x)

theorem sortDesc_sorted : ∀ l : List (String × Nat),
    (sortDesc l).Pairwise (fun a b => b.2 ≤ a.2) := by
  intro l
  induction l with
  | nil => simp [sortDesc]
  | cons x xs ih => exact insertDesc_sorted x (sortDesc xs) ih

theorem insertDesc_filter_count (x : String × Nat) (n : Nat) :
    ∀ l : List (String × Nat),
      (insertDesc x l).filter (fun y => y.2 == n) =
        if x.2 = n then x :: l.filter (fun y => y.2 == n)
        else l.filter (fun y => y.2 == n) := by
  intro l
  induction l with
  | nil =>
    by_cases hx : x.2 = n <;> simp [insertDesc, List.filter_cons, hx]
  | cons y ys ih =>
    by_cases hlt : x.2 < y.2
    · rw [show insertDesc x (y :: ys) = y :: insertDesc x ys by simp [insertDesc, hlt]]
      by_cases hy : y.2 = n
      · have hx : ¬ (x.2 = n) := by omega
        rw [List.filter_cons_of_pos (by simpa using hy),
          List.filter_cons_of_pos (by simpa using hy)]
        rw [ih, if_neg hx, if_neg hx]
      · rw [List.filter_cons_of_neg (by simpa using hy),
          List.filter_cons_of_neg (by simpa using hy)]
        exact ih
    · rw [show insertDesc x (y :: ys) = x :: y :: ys by simp [insertDesc, hlt]]
      by_cases hx : x.2 = n
      · rw [List.filter_cons_of_pos (by simpa using hx), if_pos hx]
      · rw [List.filter_cons_of_neg (by simpa using hx), if_neg hx]

theorem sortDesc_stable (n : Nat) : ∀ l : List (String × Nat),
    (sortDesc l).filter (fun y => y.2 == n) = l.filter (fun y => y.2 == n) := by
  intro l
  induction l with
  | nil => rfl
  | cons x xs ih =>
    rw [show sortDesc (x :: xs) = insertDesc x (sortDesc xs) from rfl]
    rw [insertDesc_filter_count]
    by_cases hx : x.2 = n
    · rw [if_pos hx, ih, List.filter_cons_of_pos (by simpa using hx)]
    · rw [if_neg hx, ih, List.filter_cons_of_neg (by simpa using hx)]

theorem bump_map_fst (c : List (String × Nat)) (k : String) :
    (bump c k).map Prod.fst =
      if k ∈ c.map Prod.fst then c.map Prod.fst else c.map Prod.fst ++ [k] := by
  induction c with
  | nil => simp [bump]
  | cons q rest ih =>
    by_cases hq : q.1 = k
    · simp [bump, hq]
    · have hne : ¬ (k = q.1) := fun h => hq h.symm
      by_cases hm : k ∈ rest.map Prod.fst <;>
        simp [bump, hq, ih, hm, hne]

theorem bump_lookup_self (c : List (String × Nat)) (k : String) :
    (bump c k).lookup k = some (((c.lookup k).getD 0) + 1) := by
  induction c with
  | nil => simp [bump, List.lookup]
  | cons q rest ih =>
    by_cases hq : q.1 = k
    · subst hq
      simp [bump, List.lookup]
    · have hbe : (k == q.1) = false := by
        simp only [beq_eq_false_iff_ne]
        exact fun h => hq h.symm
      simp [bump, hq, List.lookup, hbe, ih]

theorem bump_lookup_ne (c : List (String × Nat)) (k k2 : String) (h : ¬ (k2 = k)) :
    (bump c k).lookup k2 = c.lookup k2 := by
  induction c with
  | nil =>
    have hbe : (k2 == k) = false := by
      simp only [beq_eq_false_iff_ne]
      exact h
    simp [bump, List.lookup, hbe]
  | cons q rest ih =>
    by_cases hq : q.1 = k
    · subst hq
      have hbe : (k2 == q.1) = false := by
        simp only [beq_eq_false_iff_ne]
        exact h
      simp [bump, List.lookup, hbe]
    · cases hbe : (k2 == q.1) <;> simp [bump, hq, List.lookup, hbe, ih]

theorem foldl_bump_lookup (k : String) :
    ∀ (l : List String) (acc : List (String × Nat)),
      (l.foldl bump acc).lookup k =
        match acc.lookup k with
        | some v => some (v + l.count k)
        | none => if k ∈ l then some (l.count k) else none := by
  intro l
  induction l with
  | nil =>
    intro acc
    cases h : acc.lookup k <;> simp [List.foldl, h]
  | cons a rest ih =>
    intro acc
    rw [List.foldl_cons, ih]
    by_cases hak : k = a
    · subst hak
      rw [bump_lookup_self]
      cases h : acc.lookup k <;>
        simp [h, List.count_cons_self, Nat.add_comm, Nat.add_assoc, Nat.add_left_comm]
    · rw [bump_lookup_ne acc a k hak]
      have hcount : (a :: rest).count k = rest.count k := List.count_cons_of_ne hak rest
      cases h : acc.lookup k <;>
        simp [h, hcount, hak, List.mem_cons]

theorem foldl_bump_keys :
    ∀ (l : List String) (acc : List (String × Nat)),
      (l.foldl bump acc).map Prod.fst =
        acc.map Prod.fst ++
          (dedupFirst l).filter (fun x => !(decide (x ∈ acc.map Prod.fst))) := by
  intro l
  induction l with
  | nil =>
    intro acc
    simp [dedupFirst]
  | cons a rest ih =>
    intro acc
    rw [List.foldl_cons, ih, bump_map_fst]
    by_cases ha : a ∈ acc.map Prod.fst
    · rw [if_pos ha]
      simp only [dedupFirst]
      rw [List.filter_cons_of_neg (by simp [ha])]
      rw [List.filter_filter]
      congr 1
      apply List.filter_congr
      intro x _
      by_cases hxa : x = a
      · subst hxa
        simp [ha]
      · simp [hxa]
    · rw [if_neg ha]
      simp only [dedupFirst]
      rw [List.filter_cons_of_pos (by simp [ha])]
      rw [List.filter_filter]
      rw [List.append_assoc]
      congr 1
      rw [List.singleton_append]
      congr 1
      apply List.filter_congr
      intro x _
      by_cases hxa : x = a
      · subst hxa
        simp
      · by_cases hxk : x ∈ acc.map Prod.fst <;> simp [hxa, hxk]


theorem countsOf_keys (labels : List String) :
    (countsOf labels).map Prod.fst = dedupFirst labels := by
  rw [show countsOf labels = labels.foldl bump [] from rfl, foldl_bump_keys]
  simp

theorem lookup_of_mem_nodupKeys :
    ∀ (l : List (String × Nat)) (p : String × Nat), (l.map Prod.fst).Nodup → p ∈ l →
      l.lookup p.1 = some p.2 := by
  intro l
  induction l with
  | nil =>
    intro p _ hp
    simp at hp
  | cons q rest ih =>
    intro p hnd hp
    simp only [List.map_cons, List.nodup_cons] at hnd
    rcases List.mem_cons.mp hp with h | h
    · subst h
      simp [List.lookup]
    · have hne : ¬ (p.1 = q.1) := by
        intro he
        exact hnd.1 (he ▸ (List.mem_map_of_mem Prod.fst h))
      have hbe : (p.1 == q.1) = false := by
        simp only [beq_eq_false_iff_ne]
        exact hne
      simp [List.lookup, hbe, ih p hnd.2 h]

theorem countsOf_counts (labels : List String) :
    ∀ p ∈ countsOf labels, p.2 = labels.count p.1 := by
  intro p hp
  have hnd : ((countsOf labels).map Prod.fst).Nodup := by
    rw [countsOf_keys]
    exact nodup_dedupFirst labels
  have hl := lookup_of_mem_nodupKeys (countsOf labels) p hnd hp
  have hmem : p.1 ∈ labels := by
    have : p.1 ∈ (countsOf labels).map Prod.fst := List.mem_map_of_mem Prod.fst hp
    rw [countsOf_keys] at this
    exact mem_dedupFirst.mp this
  rw [show countsOf labels = labels.foldl bump [] from rfl, foldl_bump_lookup] at hl
  rw [show List.lookup p.1 ([] : List (String × Nat)) = none from rfl] at hl
  rw [if_pos hmem] at hl
  exact (Option.some_inj.mp hl).symm

/-- C8: the displayed facet list is the counting dict sorted by count
descending — a stable sort, so entries with equal counts keep their
first-seen order — truncated to the first five entries; the counting dict
itself lists the distinct labels in first-seen order with their occurrence
counts, and every retained entry dominates every dropped one. -/
theorem c8_top5_stable_desc (labels : List String) :
    ((sortDesc (countsOf labels)).Perm (countsOf labels)) ∧
    ((sortDesc (countsOf labels)).Pairwise (fun a b => b.2 ≤ a.2)) ∧
    (∀ n : Nat, (sortDesc (countsOf labels)).filter (fun y => y.2 == n) =
      (countsOf labels).filter (fun y => y.2 == n)) ∧
    ((countsOf labels).map Prod.fst = dedupFirst labels) ∧
    (∀ p ∈ countsOf labels, p.2 = labels.count p.1) ∧
    (create_dynamic_labels (countsOf labels) = (sortDesc (countsOf labels)).take 5) ∧
    ((create_dynamic_labels (countsOf labels)).length ≤ 5) ∧
    (∀ a ∈ create_dynamic_labels (countsOf labels),
      ∀ b ∈ (sortDesc (countsOf labels)).drop 5, b.2 ≤ a.2) := by
  refine ⟨sortDesc_perm _, sortDesc_sorted _, fun n => sortDesc_stable n _,
    countsOf_keys labels, countsOf_counts labels, rfl, ?_, ?_⟩
  · show ((sortDesc (countsOf labels)).take 5).length ≤ 5
    simp [List.length_take]
  · intro a ha b hb
    have hs := sortDesc_sorted (countsOf labels)
    rw [← List.take_append_drop 5 (sortDesc (countsOf labels))] at hs
    exact (List.pairwise_append.mp hs).2.2 a ha b hb

theorem c8_top5_stable_desc_witness :
    (("电信", 2) ∈ countsOf ["电信", "移动", "电信"]) ∧
    ("电信", 2).2 = (["电信", "移动", "电信"] : List String).count ("电信", 2).1 :=
  ⟨by decide,
   (c8_top5_stable_desc ["电信", "移动", "电信"]).2.2.2.2.1 ("电信", 2) (by decide)⟩

end WeibuIp
